import Mathlib

set_option linter.unusedVariables false

namespace Fc

/- Shallow embedding of the course-platform backend (database schema in
   database.js, handlers in userController.js, authController.js and
   adminController.js).  Timestamps are Int milliseconds since the epoch;
   JavaScript Date arithmetic on such instants is exact integer arithmetic. -/

def msPerDay : Int := 1000 * 60 * 60 * 24

/-- Math.ceil (a / b) on naturals, for b > 0. -/
def ceilDivNat (a b : Nat) : Nat := (a + b - 1) / b

/-- userController.js getPurchasedCourses, lines 108-113: days elapsed since
purchase, Math.ceil of the absolute elapsed milliseconds over one day. -/
def dashboardDiffDays (now purchase_date : Int) : Nat :=
  let diffTime : Nat := (now - purchase_date).natAbs
  ceilDivNat diffTime (1000 * 60 * 60 * 24)

/-- userController.js getPurchasedCourses, line 113: isRefundEligible = diffDays <= 7. -/
def dashboardIsRefundEligible (now purchase_date : Int) : Bool :=
  decide (dashboardDiffDays now purchase_date ≤ 7)

/-- userController.js requestRefund, lines 239-242: the same elapsed-days
computation, transliterated from its second occurrence in the source. -/
def refundDiffDays (now purchase_date : Int) : Nat :=
  let diffTime : Nat := (now - purchase_date).natAbs
  ceilDivNat diffTime (1000 * 60 * 60 * 24)

/- JSON values.  Modelled from the spec: the structured link list of a lesson
   ("optional structured link list (arbitrary key/value sequence)", spec section 3)
   is stored as JSON text and "decoded from its stored textual form into a
   structured value" (spec section 4.1).  The codec used by the source is the
   JavaScript built-in pair JSON.stringify / JSON.parse, which is not part of
   this repository; it is modelled below as an executable reference codec over
   values with null, booleans, integer numbers, strings, arrays and objects. -/
mutual
inductive Json : Type where
  | null : Json
  | bool (b : Bool) : Json
  | num (n : Int) : Json
  | str (s : String) : Json
  | arr (elems : JsonList) : Json
  | obj (fields : JsonFields) : Json
inductive JsonList : Type where
  | nil : JsonList
  | cons (hd : Json) (tl : JsonList) : JsonList
inductive JsonFields : Type where
  | nil : JsonFields
  | cons (key : String) (val : Json) (tl : JsonFields) : JsonFields
end

/-- One decimal digit printed as a character. -/
def digitChar (d : Nat) : Char :=
  if d = 0 then '0' else if d = 1 then '1' else if d = 2 then '2'
  else if d = 3 then '3' else if d = 4 then '4' else if d = 5 then '5'
  else if d = 6 then '6' else if d = 7 then '7' else if d = 8 then '8' else '9'

/-- Decimal digits of a natural number, most significant first (fuel-indexed
so that the definition is structurally recursive and kernel-evaluable). -/
def natDigitsAux : Nat → Nat → List Char
  | 0, _ => []
  | fuel+1, n =>
    if n < 10 then [digitChar n]
    else natDigitsAux fuel (n / 10) ++ [digitChar (n % 10)]

def natDigits (n : Nat) : List Char := natDigitsAux (n + 1) n

/-- Decimal rendering of an integer, as JSON.stringify renders an integral number. -/
def printInt (n : Int) : List Char :=
  if n < 0 then '-' :: natDigits n.natAbs else natDigits n.natAbs

/-- String-body escaping used when printing a JSON string: quote and backslash
are escaped with a backslash, all other characters are copied verbatim. -/
def escChar (c : Char) : List Char :=
  if c = '"' ∨ c = '\\' then ['\\', c] else [c]

def escList : List Char → List Char
  | [] => []
  | c :: cs => escChar c ++ escList cs

mutual
/-- Reference rendering of a JSON value, as JSON.stringify (no whitespace). -/
def printJson : Json → List Char
  | .null => "null".data
  | .bool true => "true".data
  | .bool false => "false".data
  | .num n => printInt n
  | .str s => '"' :: (escList s.data ++ ['"'])
  | .arr .nil => ['[', ']']
  | .arr (.cons x xs) => '[' :: (printJson x ++ printArr xs)
  | .obj .nil => ['\x7b', '\x7d']
  | .obj (.cons k v fs) => '\x7b' :: (printKV k v ++ printObj fs)
/-- Remaining array elements: a comma before each element, then the closing bracket. -/
def printArr : JsonList → List Char
  | .nil => [']']
  | .cons x xs => ',' :: (printJson x ++ printArr xs)
/-- Remaining object fields: a comma before each field, then the closing brace. -/
def printObj : JsonFields → List Char
  | .nil => ['\x7d']
  | .cons k v fs => ',' :: (printKV k v ++ printObj fs)
/-- One object field: quoted escaped key, colon, value. -/
def printKV (k : String) (v : Json) : List Char :=
  '"' :: (escList k.data ++ ('"' :: ':' :: printJson v))
end

def stringify (j : Json) : String := String.mk (printJson j)

mutual
/-- Fuel that suffices for the parser below to re-read a printed value. -/
def jsonFuel : Json → Nat
  | .arr xs => listFuel xs + 1
  | .obj fs => fieldsFuel fs + 1
  | _ => 1
def listFuel : JsonList → Nat
  | .nil => 1
  | .cons x xs => jsonFuel x + listFuel xs + 1
def fieldsFuel : JsonFields → Nat
  | .nil => 1
  | .cons _ v fs => jsonFuel v + fieldsFuel fs + 1
end

/-- Strip an expected literal from the front of the input. -/
def stripPre : List Char → List Char → Option (List Char)
  | [], cs => some cs
  | p :: ps, c :: cs => if c = p then stripPre ps cs else none
  | _ :: _, [] => none

/-- Parse the body of a JSON string up to its closing quote, undoing escChar. -/
def parseStrBody : List Char → Option (List Char × List Char)
  | [] => none
  | c :: rest =>
    if c = '"' then some ([], rest)
    else if c = '\\' then
      match rest with
      | [] => none
      | d :: rest2 => (parseStrBody rest2).map (fun p => (d :: p.1, p.2))
    else (parseStrBody rest).map (fun p => (c :: p.1, p.2))

/-- Digit-list value, most significant first. -/
def digitsToNat (ds : List Char) : Nat :=
  ds.foldl (fun a c => a * 10 + (c.toNat - 48)) 0

/-- Parse an (optionally negated) run of decimal digits. -/
def parseNumber (cs : List Char) : Option (Int × List Char) :=
  match cs with
  | [] => none
  | c :: rest =>
    if c = '-' then
      if (rest.takeWhile Char.isDigit) = [] then none
      else some (-(digitsToNat (rest.takeWhile Char.isDigit) : Int), rest.dropWhile Char.isDigit)
    else
      if ((c :: rest).takeWhile Char.isDigit) = [] then none
      else some ((digitsToNat ((c :: rest).takeWhile Char.isDigit) : Int),
        (c :: rest).dropWhile Char.isDigit)

mutual
/-- Reference JSON parser (fuel-indexed, hence structurally recursive and
kernel-evaluable); parses one value and returns the unconsumed remainder. -/
def parseVal : Nat → List Char → Option (Json × List Char)
  | 0, _ => none
  | _+1, [] => none
  | fuel+1, c :: rest =>
    if c = 'n' then (stripPre ['u', 'l', 'l'] rest).map (fun r => (Json.null, r))
    else if c = 't' then (stripPre ['r', 'u', 'e'] rest).map (fun r => (Json.bool true, r))
    else if c = 'f' then (stripPre ['a', 'l', 's', 'e'] rest).map (fun r => (Json.bool false, r))
    else if c = '"' then (parseStrBody rest).map (fun p => (Json.str (String.mk p.1), p.2))
    else if c = '[' then
      match rest with
      | [] => (parseElems fuel []).map (fun p => (Json.arr p.1, p.2))
      | r0 :: r =>
        if r0 = ']' then some (Json.arr .nil, r)
        else (parseElems fuel (r0 :: r)).map (fun p => (Json.arr p.1, p.2))
    else if c = '\x7b' then
      match rest with
      | [] => (parseFields fuel []).map (fun p => (Json.obj p.1, p.2))
      | r0 :: r =>
        if r0 = '\x7d' then some (Json.obj .nil, r)
        else (parseFields fuel (r0 :: r)).map (fun p => (Json.obj p.1, p.2))
    else (parseNumber (c :: rest)).map (fun p => (Json.num p.1, p.2))
/-- Parse the elements of a non-empty array, including the closing bracket. -/
def parseElems : Nat → List Char → Option (JsonList × List Char)
  | 0, _ => none
  | fuel+1, cs =>
    (parseVal fuel cs).bind (fun p =>
      match p.2 with
      | ',' :: r2 => (parseElems fuel r2).map (fun q => (JsonList.cons p.1 q.1, q.2))
      | ']' :: r2 => some (JsonList.cons p.1 .nil, r2)
      | _ => none)
/-- Parse the fields of a non-empty object, including the closing brace. -/
def parseFields : Nat → List Char → Option (JsonFields × List Char)
  | 0, _ => none
  | fuel+1, cs =>
    match cs with
    | '"' :: cs2 =>
      (parseStrBody cs2).bind (fun kp =>
        match kp.2 with
        | ':' :: r2 =>
          (parseVal fuel r2).bind (fun vp =>
            match vp.2 with
            | ',' :: r3 =>
              (parseFields fuel r3).map (fun q => (JsonFields.cons (String.mk kp.1) vp.1 q.1, q.2))
            | '\x7d' :: r3 => some (JsonFields.cons (String.mk kp.1) vp.1 .nil, r3)
            | _ => none)
        | _ => none)
    | _ => none
end

/-- JSON.parse of a whole input: succeeds when one value consumes the input. -/
def jsonParse (s : String) : Option Json :=
  match parseVal (2 * s.data.length + 2) s.data with
  | some (j, []) => some j
  | _ => none

/- Relational rows, following the schema created in database.js. -/

structure User where
  id : Nat
  name : String
  email : String
deriving Repr, DecidableEq

structure Course where
  id : Nat
  name : String
  image_url : String
  description : String
  price : Int
deriving Repr, DecidableEq

structure Module where
  id : Nat
  course_id : Nat
  name : String
  order_index : Int
deriving Repr, DecidableEq

structure Lesson where
  id : Nat
  module_id : Nat
  title : String
  video_url : String
  description_text : Option String
  links : Option String
  drip_days : Int
  order_index : Int
deriving Repr, DecidableEq

structure Purchase where
  id : Nat
  user_id : Nat
  course_id : Nat
  purchase_date : Int
deriving Repr, DecidableEq

inductive RefundStatus where
  | pendente
  | aprovado
  | rejeitado
deriving Repr, DecidableEq, BEq

structure RefundRequest where
  id : Nat
  user_id : Nat
  course_id : Nat
  message : String
  request_date : Int
  status : RefundStatus
deriving Repr, DecidableEq

/-- The relational store.  Row order stands in for insertion order; the SQL
ORDER BY clauses of the read queries only affect presentation order, which no
claim depends on, so they are not modelled. -/
structure DB where
  users : List User
  courses : List Course
  modules : List Module
  lessons : List Lesson
  purchases : List Purchase
  refunds : List RefundRequest
deriving Repr, DecidableEq

/-- AUTO_INCREMENT: a fresh id strictly above every existing one. -/
def nextId (ids : List Nat) : Nat := ids.foldr max 0 + 1

/-- JavaScript truthiness of an optional numeric request field: absent or 0 is falsy. -/
def truthyNat : Option Nat → Bool
  | none => false
  | some n => !(n == 0)

/-- JavaScript truthiness of an optional string request field: absent or empty is falsy. -/
def truthyStr : Option String → Bool
  | none => false
  | some s => !(s == "")

/- Drip-content arithmetic, userController.js getCourseContent lines 174-179.
   releaseDate.setDate(purchaseDate.getDate() + dripDays) adds dripDays
   calendar days to the purchase instant keeping its time of day, which on
   millisecond instants (fixed-offset clock) is adding dripDays * msPerDay. -/
def releaseDateOf (purchase_date drip_days : Int) : Int :=
  purchase_date + drip_days * msPerDay

/-- releaseDate.toISOString().split on the letter T, first part (line 188):
the calendar day of the release instant, identified by its day index. -/
def isoDay (t : Int) : Int := t / msPerDay

/-- Fixed placeholder shown for a not-yet-released lesson (line 190). -/
def comingSoon : String := "O conteúdo desta aula será liberado em breve."

/-- The object literal built in the not-released branch, lines 183-192. -/
structure RedactedLesson where
  id : Nat
  title : String
  order_index : Int
  isReleased : Bool
  releaseDay : Int
  videoUrl : Option String
  descriptionText : String
  links : Option Json

/-- Per-lesson response shape: the redacted literal of lines 183-192, or the
full row spread of lines 196-200 with isReleased and the decoded links. -/
inductive LessonView where
  | redacted (r : RedactedLesson)
  | full (l : Lesson) (isReleased : Bool) (links : Option Json)

/-- The lesson mapper of getCourseContent, userController.js lines 171-201.
JSON.parse throwing on a stored links value (line 199) propagates as an
exception, caught by the handler's catch block; that is the error case. -/
def viewLesson (purchaseDate now : Int) (l : Lesson) : Except Unit LessonView :=
  let dripDays := l.drip_days
  let releaseDate := releaseDateOf purchaseDate dripDays
  let isReleased : Bool := decide (now ≥ releaseDate)
  if isReleased = false then
    .ok (.redacted
      { id := l.id, title := l.title, order_index := l.order_index,
        isReleased := false, releaseDay := isoDay releaseDate,
        videoUrl := none, descriptionText := comingSoon, links := none })
  else
    match l.links with
    | none => .ok (.full l true none)
    | some s =>
      if s == "" then .ok (.full l true none)
      else
        match jsonParse s with
        | some j => .ok (.full l true (some j))
        | none => .error ()

inductive ContentResult where
  | forbidden403
  | notFound404
  | ok (course : Course) (body : List (Module × List LessonView))
  | error500

def lessonsOf (db : DB) (moduleId : Nat) : List Lesson :=
  db.lessons.filter (fun l => l.module_id == moduleId)

/-- userController.js getCourseContent, lines 135-213: purchase check (403),
then course lookup (404), then modules with drip-filtered lessons. -/
def getCourseContent (db : DB) (userId courseId : Nat) (now : Int) : ContentResult :=
  match db.purchases.filter (fun p => p.user_id == userId && p.course_id == courseId) with
  | [] => .forbidden403
  | p :: _ =>
    let purchaseDate := p.purchase_date
    match db.courses.filter (fun c => c.id == courseId) with
    | [] => .notFound404
    | c :: _ =>
      let mods := db.modules.filter (fun m => m.course_id == courseId)
      match mods.mapM (fun m =>
          ((lessonsOf db m.id).mapM (viewLesson purchaseDate now)).map (fun vs => (m, vs))) with
      | .ok body => .ok c body
      | .error _ => .error500

inductive PurchaseResult where
  | badRequest400
  | notFound404
  | created201 (purchaseId : Nat)
  | conflict409
deriving Repr, DecidableEq

/-- userController.js purchaseCourse, lines 57-88: course id required (400),
course must exist (404), INSERT guarded by the UNIQUE KEY user_course_unique;
a duplicate raises ER_DUP_ENTRY, answered with 409 and no state change. -/
def purchaseCourse (db : DB) (userId : Nat) (courseId : Option Nat) (now : Int) :
    PurchaseResult × DB :=
  if truthyNat courseId = false then (.badRequest400, db)
  else
    match courseId with
    | none => (.badRequest400, db)
    | some cid =>
      match db.courses.filter (fun c => c.id == cid) with
      | [] => (.notFound404, db)
      | _ :: _ =>
        if db.purchases.any (fun p => p.user_id == userId && p.course_id == cid) then
          (.conflict409, db)
        else
          let pid := nextId (db.purchases.map (fun p => p.id))
          (.created201 pid,
            { db with purchases := db.purchases ++ [⟨pid, userId, cid, now⟩] })

/-- One row of the dashboard listing, userController.js lines 97-120. -/
structure DashboardEntry where
  course_id : Nat
  name : String
  image_url : String
  description : String
  purchase_date : Int
  isRefundEligible : Bool
  daysSincePurchase : Nat
deriving Repr, DecidableEq

/-- userController.js getPurchasedCourses, lines 93-128: the user's purchases
joined with Courses, annotated with the refund-eligibility flag. -/
def getPurchasedCourses (db : DB) (userId : Nat) (now : Int) : List DashboardEntry :=
  ((db.purchases.filter (fun p => p.user_id == userId)).filterMap (fun p =>
      match (db.courses.filter (fun c => c.id == p.course_id)).head? with
      | none => none
      | some c => some (p, c))).map (fun pc =>
    { course_id := pc.1.course_id, name := pc.2.name, image_url := pc.2.image_url,
      description := pc.2.description, purchase_date := pc.1.purchase_date,
      isRefundEligible := dashboardIsRefundEligible now pc.1.purchase_date,
      daysSincePurchase := dashboardDiffDays now pc.1.purchase_date })

inductive RefundResult where
  | badRequest400
  | notFound404
  | windowExpired403 (diffDays : Nat)
  | conflict409
  | ok200
  | error500
deriving Repr, DecidableEq

/-- The three-table join of requestRefund, userController.js lines 229-232:
purchases of (user, course) that still join to an existing course and user. -/
def refundJoinRows (db : DB) (userId courseId : Nat) : List (Course × User × Purchase) :=
  (db.purchases.filter (fun p => p.user_id == userId && p.course_id == courseId)).filterMap
    (fun p =>
      match (db.courses.filter (fun c => c.id == p.course_id)).head?,
            (db.users.filter (fun u => u.id == p.user_id)).head? with
      | some c, some u => some (c, u, p)
      | _, _ => none)

/-- userController.js requestRefund, lines 219-273.  emailOk models whether
sendRefundNotification (brevo.js) returns normally or throws: a throw after
the INSERT is caught by the catch block and answered with 500, with no
rollback of the inserted row. -/
def requestRefund (db : DB) (userId : Nat) (courseId : Option Nat)
    (message : Option String) (now : Int) (emailOk : Bool) : RefundResult × DB :=
  if truthyNat courseId = false ∨ truthyStr message = false then (.badRequest400, db)
  else
    match courseId, message with
    | some cid, some msg =>
      match refundJoinRows db userId cid with
      | [] => (.notFound404, db)
      | (c, u, p) :: _ =>
        let diffDays := refundDiffDays now p.purchase_date
        if diffDays > 7 then (.windowExpired403 diffDays, db)
        else if (db.refunds.filter (fun r =>
            r.user_id == userId && r.course_id == cid && r.status == RefundStatus.pendente)).length > 0 then
          (.conflict409, db)
        else
          let rid := nextId (db.refunds.map (fun r => r.id))
          let db2 := { db with refunds := db.refunds ++ [⟨rid, userId, cid, msg, now, .pendente⟩] }
          if emailOk then (.ok200, db2) else (.error500, db2)
    | _, _ => (.badRequest400, db)

/-- String.prototype.split with a single-character separator, as used on the
Authorization header in authController.js line 297. -/
def splitOnChar (sep : Char) : List Char → List (List Char)
  | [] => [[]]
  | c :: cs =>
    if c = sep then [] :: splitOnChar sep cs
    else
      match splitOnChar sep cs with
      | [] => [[c]]
      | g :: gs => (c :: g) :: gs

/-- Outcome of the middleware before any token verification: either the
missing-token 401 or a call to jwt.verify on the extracted token. -/
inductive AuthStep where
  | missingToken401
  | verify (token : String)
deriving Repr, DecidableEq

/-- authController.js authMiddleware, lines 296-311: take element 1 of the
header split on a space; a missing element, like an absent header, is falsy
(undefined), and the empty string is falsy too, both answered with 401. -/
def authMiddleware (authHeader : Option String) : AuthStep :=
  match authHeader with
  | none => .missingToken401
  | some h =>
    match (splitOnChar ' ' h.data).get? 1 with
    | none => .missingToken401
    | some t => if t = [] then .missingToken401 else .verify (String.mk t)

inductive CreateLessonResult where
  | badRequest400
  | created201 (lessonId : Nat)
deriving Repr, DecidableEq

/-- adminController.js createLesson, lines 116-180: required-field validation,
then the links formatting of lines 148-153 (JSON.stringify of JSON.parse,
a parse failure answered with 400 before any insert), then the INSERT.
videoUrl is the already-uploaded URL (empty when no file was sent). -/
def createLesson (db : DB) (moduleId : Option Nat) (title : Option String)
    (descriptionText : Option String) (linksJson : Option String)
    (dripDays : Option Int) (orderIndex : Option Int) (videoUrl : String) :
    CreateLessonResult × DB :=
  if truthyNat moduleId = false ∨ truthyStr title = false
      ∨ dripDays = none ∨ orderIndex = none then
    (.badRequest400, db)
  else
    match moduleId, title, dripDays, orderIndex with
    | some mid, some t, some dd, some oi =>
      let fmtLinks : Except Unit (Option String) :=
        match linksJson with
        | none => .ok none
        | some s =>
          if s == "" then .ok none
          else
            match jsonParse s with
            | some j => .ok (some (stringify j))
            | none => .error ()
      match fmtLinks with
      | .error _ => (.badRequest400, db)
      | .ok links =>
        let desc : Option String :=
          match descriptionText with
          | some s => if s == "" then none else some s
          | none => none
        let lid := nextId (db.lessons.map (fun l => l.id))
        (.created201 lid,
          { db with lessons := db.lessons ++ [⟨lid, mid, t, videoUrl, desc, links, dd, oi⟩] })
    | _, _, _, _ => (.badRequest400, db)

/-- The decoded links a released lesson row presents (line 199), assuming the
stored text decodes; an undecodable stored value is the error case instead. -/
def decodedLinks (l : Lesson) : Option Json :=
  match l.links with
  | none => none
  | some s => if s == "" then none else jsonParse s

/-- The stored links text decodes (vacuous for lessons created through
createLesson, whose stored text is a stringify image). -/
def LinksOk (l : Lesson) : Prop :=
  match l.links with
  | none => True
  | some s => s = "" ∨ (jsonParse s).isSome = true

/-- The schema invariant enforced by UNIQUE KEY user_course_unique. -/
def AtMostOnePurchase (db : DB) : Prop :=
  ∀ u c : Nat,
    (db.purchases.filter (fun p => p.user_id == u && p.course_id == c)).length ≤ 1

/-- The Pending rows of (user, course), as queried at lines 249-252. -/
def pendingFilter (db : DB) (u c : Nat) : List RefundRequest :=
  db.refunds.filter (fun r =>
    r.user_id == u && r.course_id == c && r.status == RefundStatus.pendente)

/-- The checked invariant: at most one Pending request per (user, course). -/
def AtMostOnePending (db : DB) : Prop :=
  ∀ u c : Nat, (pendingFilter db u c).length ≤ 1

/-- The lesson row createLesson inserts (lines 156-168). -/
def storedLesson (db : DB) (mid : Nat) (t : String) (desc : Option String)
    (links : Option String) (dd oi : Int) (vu : String) : Lesson :=
  ⟨nextId (db.lessons.map (fun l => l.id)), mid, t, vu,
    (match desc with | some d => if d == "" then none else some d | none => none),
    links, dd, oi⟩

/- Concrete fixtures used by witness theorems. -/

def exUser : User := ⟨1, "Ana", "ana@example.com"⟩

def exCourse : Course := ⟨1, "Curso", "img.png", "desc", 100⟩

def exPurchase : Purchase := ⟨1, 1, 1, 0⟩

def exPending : RefundRequest := ⟨1, 1, 1, "quero reembolso", 0, .pendente⟩

/-- A store with one user who purchased the one course at instant 0. -/
def exDB : DB := ⟨[exUser], [exCourse], [], [], [exPurchase], []⟩

/-- The same store with a Pending refund request already filed. -/
def exDBPending : DB := ⟨[exUser], [exCourse], [], [], [exPurchase], [exPending]⟩

/- Arithmetic facts about the digit printer and reader. -/

theorem digitChar_isDigit (d : Nat) : (digitChar d).isDigit = true := by
  unfold digitChar
  split_ifs <;> decide

theorem digitChar_toNat (d : Nat) (h : d < 10) : (digitChar d).toNat = 48 + d := by
  interval_cases d <;> decide

theorem isDigit_ne (c d : Char) (hc : c.isDigit = true) (hd : d.isDigit = false) : c ≠ d := by
  intro h
  rw [h, hd] at hc
  cases hc

theorem natDigitsAux_mem_digit (fuel : Nat) :
    ∀ n, ∀ c ∈ natDigitsAux fuel n, c.isDigit = true := by
  induction fuel with
  | zero => intro n c hc; simp [natDigitsAux] at hc
  | succ f ih =>
    intro n c hc
    by_cases h : n < 10
    · simp [natDigitsAux, h] at hc
      rw [hc]
      exact digitChar_isDigit n
    · simp [natDigitsAux, h] at hc
      rcases hc with hc | hc
      · exact ih (n / 10) c hc
      · rw [hc]
        exact digitChar_isDigit (n % 10)

theorem digitsToNat_append_one (l : List Char) (c : Char) :
    digitsToNat (l ++ [c]) = digitsToNat l * 10 + (c.toNat - 48) := by
  simp [digitsToNat, List.foldl_append]

theorem digitsToNat_natDigitsAux (fuel : Nat) :
    ∀ n, n < fuel → digitsToNat (natDigitsAux fuel n) = n := by
  induction fuel with
  | zero => intro n h; omega
  | succ f ih =>
    intro n h
    by_cases h10 : n < 10
    · simp [natDigitsAux, h10, digitsToNat, digitChar_toNat n h10]
    · have hd : n / 10 < f := by omega
      simp [natDigitsAux, h10, digitsToNat_append_one, ih (n / 10) hd,
        digitChar_toNat (n % 10) (by omega)]
      omega

theorem natDigits_spec (n : Nat) :
    (∀ c ∈ natDigits n, c.isDigit = true) ∧ digitsToNat (natDigits n) = n ∧ natDigits n ≠ [] := by
  refine ⟨natDigitsAux_mem_digit (n + 1) n, digitsToNat_natDigitsAux (n + 1) n (by omega), ?_⟩
  by_cases h : n < 10 <;> simp [natDigits, natDigitsAux, h]

theorem takeWhile_app (p : Char → Bool) (l1 l2 : List Char)
    (h1 : ∀ c ∈ l1, p c = true)
    (h2 : ∀ c, l2.head? = some c → p c = false) :
    (l1 ++ l2).takeWhile p = l1 ∧ (l1 ++ l2).dropWhile p = l2 := by
  induction l1 with
  | nil =>
    cases l2 with
    | nil => simp
    | cons c t =>
      have hc := h2 c rfl
      simp [List.takeWhile_cons, List.dropWhile_cons, hc]
  | cons c t ih =>
    have hc := h1 c (by simp)
    have ht := ih (fun x hx => h1 x (by simp [hx]))
    simp [List.takeWhile_cons, List.dropWhile_cons, hc, ht.1, ht.2]

theorem stripPre_append (ps rest : List Char) : stripPre ps (ps ++ rest) = some rest := by
  induction ps with
  | nil => rfl
  | cons p t ih => simp [stripPre, ih]

theorem parseStrBody_esc (s rest : List Char) :
    parseStrBody (escList s ++ '"' :: rest) = some (s, rest) := by
  induction s with
  | nil =>
    rw [show escList [] ++ '"' :: rest = '"' :: rest by simp [escList]]
    rw [parseStrBody.eq_def]
    simp
  | cons c t ih =>
    by_cases h : c = '"' ∨ c = '\\'
    · rw [show escList (c :: t) ++ '"' :: rest = '\\' :: c :: (escList t ++ '"' :: rest) by
        simp [escList, escChar, h]]
      rw [parseStrBody.eq_def]
      simp [ih]
    · push_neg at h
      obtain ⟨h1, h2⟩ := h
      rw [show escList (c :: t) ++ '"' :: rest = c :: (escList t ++ '"' :: rest) by
        simp [escList, escChar, h1, h2]]
      rw [parseStrBody.eq_def]
      simp [h1, h2, ih]

theorem parseNumber_printInt (n : Int) (rest : List Char)
    (hrest : ∀ c, rest.head? = some c → c.isDigit = false) :
    parseNumber (printInt n ++ rest) = some (n, rest) := by
  obtain ⟨hdig, hval, hne⟩ := natDigits_spec n.natAbs
  obtain ⟨d, ds, hds⟩ : ∃ d ds, natDigits n.natAbs = d :: ds := by
    cases hnd : natDigits n.natAbs with
    | nil => exact absurd hnd hne
    | cons d ds => exact ⟨d, ds, rfl⟩
  have htake := takeWhile_app Char.isDigit (natDigits n.natAbs) rest hdig hrest
  by_cases hn : n < 0
  · rw [show printInt n ++ rest = '-' :: (natDigits n.natAbs ++ rest) by simp [printInt, hn]]
    rw [parseNumber.eq_def]
    simp [htake.1, htake.2, hne, hval]
    rw [abs_of_nonpos (show n ≤ 0 by omega)]
    omega
  · have hd : d.isDigit = true := hdig d (by rw [hds]; simp)
    have hdne : d ≠ '-' := isDigit_ne d '-' hd (by decide)
    rw [show printInt n ++ rest = d :: (ds ++ rest) by simp [printInt, hn, hds]]
    rw [parseNumber.eq_def]
    have hcons : d :: (ds ++ rest) = natDigits n.natAbs ++ rest := by simp [hds]
    simp only [hdne, if_neg, ite_false, if_false]
    rw [hcons, htake.1, htake.2]
    simp [hne, hval]
    omega

theorem printJson_shape (j : Json) :
    ∃ c l, printJson j = c :: l ∧ c ≠ ']' ∧ c ≠ '\x7d' := by
  cases j with
  | null => exact ⟨'n', ['u', 'l', 'l'], by simp [printJson], by decide, by decide⟩
  | bool b =>
    cases b with
    | false => exact ⟨'f', ['a', 'l', 's', 'e'], by simp [printJson], by decide, by decide⟩
    | true => exact ⟨'t', ['r', 'u', 'e'], by simp [printJson], by decide, by decide⟩
  | num n =>
    obtain ⟨hdig, hval, hne⟩ := natDigits_spec n.natAbs
    by_cases hn : n < 0
    · exact ⟨'-', natDigits n.natAbs, by simp [printJson, printInt, hn], by decide, by decide⟩
    · obtain ⟨d, ds, hds⟩ : ∃ d ds, natDigits n.natAbs = d :: ds := by
        cases hnd : natDigits n.natAbs with
        | nil => exact absurd hnd hne
        | cons d ds => exact ⟨d, ds, rfl⟩
      have hd : d.isDigit = true := hdig d (by rw [hds]; simp)
      exact ⟨d, ds, by simp [printJson, printInt, hn, hds],
        isDigit_ne d ']' hd (by decide), isDigit_ne d '\x7d' hd (by decide)⟩
  | str s =>
    exact ⟨'"', escList s.data ++ ['"'], by simp [printJson], by decide, by decide⟩
  | arr xs =>
    cases xs with
    | nil => exact ⟨'[', [']'], by simp [printJson], by decide, by decide⟩
    | cons x tl =>
      exact ⟨'[', printJson x ++ printArr tl, by simp [printJson], by decide, by decide⟩
  | obj fs =>
    cases fs with
    | nil => exact ⟨'\x7b', ['\x7d'], by simp [printJson], by decide, by decide⟩
    | cons k v tl =>
      exact ⟨'\x7b', printKV k v ++ printObj tl, by simp [printJson], by decide, by decide⟩

theorem jsonFuel_pos (j : Json) : 1 ≤ jsonFuel j := by
  cases j <;> simp [jsonFuel]

theorem listFuel_pos (xs : JsonList) : 1 ≤ listFuel xs := by
  cases xs <;> simp [listFuel]

theorem fieldsFuel_pos (fs : JsonFields) : 1 ≤ fieldsFuel fs := by
  cases fs <;> simp [fieldsFuel]

theorem string_mk_data (s : String) : String.mk s.data = s := rfl

theorem head_guard (a : Char) (l : List Char) (h : a.isDigit = false) :
    ∀ c, (a :: l).head? = some c → c.isDigit = false := by
  intro c hc
  rw [List.head?_cons] at hc
  cases hc
  exact h

theorem head_guard_nil : ∀ c : Char, ([] : List Char).head? = some c → c.isDigit = false := by
  intro c hc
  simp at hc

theorem parse_print_all (N : Nat) :
    (∀ j : Json, ∀ fuel : Nat, ∀ rest : List Char, jsonFuel j ≤ N → jsonFuel j ≤ fuel →
      (∀ c, rest.head? = some c → c.isDigit = false) →
      parseVal fuel (printJson j ++ rest) = some (j, rest)) ∧
    (∀ x : Json, ∀ xs : JsonList, ∀ fuel : Nat, ∀ rest : List Char,
      jsonFuel x + listFuel xs ≤ N → jsonFuel x + listFuel xs ≤ fuel →
      parseElems fuel (printJson x ++ (printArr xs ++ rest)) = some (JsonList.cons x xs, rest)) ∧
    (∀ k : String, ∀ v : Json, ∀ fs : JsonFields, ∀ fuel : Nat, ∀ rest : List Char,
      jsonFuel v + fieldsFuel fs + 1 ≤ N → jsonFuel v + fieldsFuel fs + 1 ≤ fuel →
      parseFields fuel
        ('"' :: (escList k.data ++ ('"' :: ':' :: (printJson v ++ (printObj fs ++ rest)))))
        = some (JsonFields.cons k v fs, rest)) := by
  induction N with
  | zero =>
    refine ⟨fun j fuel rest h1 _ _ => absurd h1 (by have := jsonFuel_pos j; omega),
      fun x xs fuel rest h1 _ =>
        absurd h1 (by have := jsonFuel_pos x; have := listFuel_pos xs; omega),
      fun k v fs fuel rest h1 _ => absurd h1 (by omega)⟩
  | succ N ih =>
    obtain ⟨ihA, ihB, ihC⟩ := ih
    refine ⟨?_, ?_, ?_⟩
    · intro j fuel rest hN hf hrest
      obtain ⟨f, rfl⟩ : ∃ f, fuel = f + 1 := ⟨fuel - 1, by have := jsonFuel_pos j; omega⟩
      cases j with
      | null =>
        rw [show printJson Json.null ++ rest = 'n' :: ('u' :: 'l' :: 'l' :: rest) by
          simp [printJson]]
        rw [parseVal.eq_def]
        simp [stripPre]
      | bool b =>
        cases b with
        | true =>
          rw [show printJson (Json.bool true) ++ rest = 't' :: ('r' :: 'u' :: 'e' :: rest) by
            simp [printJson]]
          rw [parseVal.eq_def]
          simp [stripPre]
        | false =>
          rw [show printJson (Json.bool false) ++ rest = 'f' :: ('a' :: 'l' :: 's' :: 'e' :: rest) by
            simp [printJson]]
          rw [parseVal.eq_def]
          simp [stripPre]
      | num n =>
        have hnum : ∃ c l, printInt n = c :: l ∧ (c = '-' ∨ c.isDigit = true) := by
          obtain ⟨hdig, hval, hne⟩ := natDigits_spec n.natAbs
          by_cases hn : n < 0
          · exact ⟨'-', natDigits n.natAbs, by simp [printInt, hn], Or.inl rfl⟩
          · obtain ⟨d, ds, hds⟩ : ∃ d ds, natDigits n.natAbs = d :: ds := by
              cases hnd : natDigits n.natAbs with
              | nil => exact absurd hnd hne
              | cons d ds => exact ⟨d, ds, rfl⟩
            exact ⟨d, ds, by simp [printInt, hn, hds], Or.inr (hdig d (by rw [hds]; simp))⟩
        obtain ⟨c, l, hcl, hcd⟩ := hnum
        have hc1 : c ≠ 'n' := by
          rcases hcd with h | h
          · rw [h]; decide
          · exact isDigit_ne c 'n' h (by decide)
        have hc2 : c ≠ 't' := by
          rcases hcd with h | h
          · rw [h]; decide
          · exact isDigit_ne c 't' h (by decide)
        have hc3 : c ≠ 'f' := by
          rcases hcd with h | h
          · rw [h]; decide
          · exact isDigit_ne c 'f' h (by decide)
        have hc4 : c ≠ '"' := by
          rcases hcd with h | h
          · rw [h]; decide
          · exact isDigit_ne c '"' h (by decide)
        have hc5 : c ≠ '[' := by
          rcases hcd with h | h
          · rw [h]; decide
          · exact isDigit_ne c '[' h (by decide)
        have hc6 : c ≠ '\x7b' := by
          rcases hcd with h | h
          · rw [h]; decide
          · exact isDigit_ne c '\x7b' h (by decide)
        rw [show printJson (Json.num n) ++ rest = c :: (l ++ rest) by simp [printJson, hcl]]
        rw [parseVal.eq_def]
        simp [hc1, hc2, hc3, hc4, hc5, hc6]
        rw [show c :: (l ++ rest) = printInt n ++ rest by simp [hcl]]
        rw [parseNumber_printInt n rest hrest]
      | str s =>
        rw [show printJson (Json.str s) ++ rest = '"' :: (escList s.data ++ '"' :: rest) by
          simp [printJson]]
        rw [parseVal.eq_def]
        simp [parseStrBody_esc, string_mk_data]
      | arr xs =>
        cases xs with
        | nil =>
          rw [show printJson (Json.arr .nil) ++ rest = '[' :: (']' :: rest) by simp [printJson]]
          rw [parseVal.eq_def]
          simp
        | cons x tl =>
          obtain ⟨c0, l0, hx, hne1, hne2⟩ := printJson_shape x
          have hNlt : jsonFuel x + listFuel tl ≤ N := by
            simp [jsonFuel, listFuel] at hN
            omega
          have hlf : jsonFuel x + listFuel tl ≤ f := by
            simp [jsonFuel, listFuel] at hf
            omega
          rw [show printJson (Json.arr (JsonList.cons x tl)) ++ rest
              = '[' :: (c0 :: (l0 ++ (printArr tl ++ rest))) by simp [printJson, hx]]
          rw [parseVal.eq_def]
          simp [hne1]
          rw [show c0 :: (l0 ++ (printArr tl ++ rest)) = printJson x ++ (printArr tl ++ rest) by
            simp [hx]]
          rw [ihB x tl f rest hNlt hlf]
      | obj fs =>
        cases fs with
        | nil =>
          rw [show printJson (Json.obj .nil) ++ rest = '\x7b' :: ('\x7d' :: rest) by
            simp [printJson]]
          rw [parseVal.eq_def]
          simp
        | cons k v tl =>
          have hNlt : jsonFuel v + fieldsFuel tl + 1 ≤ N := by
            simp [jsonFuel, fieldsFuel] at hN
            omega
          have hff : jsonFuel v + fieldsFuel tl + 1 ≤ f := by
            simp [jsonFuel, fieldsFuel] at hf
            omega
          rw [show printJson (Json.obj (JsonFields.cons k v tl)) ++ rest
              = '\x7b' ::
                ('"' :: (escList k.data ++ ('"' :: ':' :: (printJson v ++ (printObj tl ++ rest)))))
              by simp [printJson, printKV]]
          rw [parseVal.eq_def]
          simp
          rw [ihC k v tl f rest hNlt hff]
    · intro x xs fuel rest hN hf
      obtain ⟨f, rfl⟩ : ∃ f, fuel = f + 1 :=
        ⟨fuel - 1, by have := jsonFuel_pos x; have := listFuel_pos xs; omega⟩
      cases xs with
      | nil =>
        rw [show printArr JsonList.nil ++ rest = ']' :: rest by simp [printArr]]
        rw [parseElems.eq_def]
        simp
        rw [ihA x f (']' :: rest) (by simp [listFuel] at hN; omega)
          (by simp [listFuel] at hf; omega) (head_guard ']' rest (by decide))]
        simp
      | cons y tl =>
        rw [show printArr (JsonList.cons y tl) ++ rest
            = ',' :: (printJson y ++ (printArr tl ++ rest)) by simp [printArr]]
        rw [parseElems.eq_def]
        simp
        rw [ihA x f (',' :: (printJson y ++ (printArr tl ++ rest)))
          (by have := jsonFuel_pos y; have := listFuel_pos tl; simp [listFuel] at hN; omega)
          (by have := jsonFuel_pos y; have := listFuel_pos tl; simp [listFuel] at hf; omega)
          (head_guard ',' _ (by decide))]
        simp
        rw [ihB y tl f rest (by have := jsonFuel_pos x; simp [listFuel] at hN; omega)
          (by have := jsonFuel_pos x; simp [listFuel] at hf; omega)]
    · intro k v fs fuel rest hN hf
      obtain ⟨f, rfl⟩ : ∃ f, fuel = f + 1 := ⟨fuel - 1, by omega⟩
      cases fs with
      | nil =>
        rw [parseFields.eq_def]
        simp
        rw [parseStrBody_esc k.data (':' :: (printJson v ++ (printObj JsonFields.nil ++ rest)))]
        simp
        rw [show printObj JsonFields.nil ++ rest = '\x7d' :: rest by simp [printObj]]
        rw [ihA v f ('\x7d' :: rest) (by simp [fieldsFuel] at hN; omega)
          (by simp [fieldsFuel] at hf; omega) (head_guard '\x7d' rest (by decide))]
        simp [string_mk_data]
      | cons k2 v2 tl =>
        rw [parseFields.eq_def]
        simp
        rw [parseStrBody_esc k.data
          (':' :: (printJson v ++ (printObj (JsonFields.cons k2 v2 tl) ++ rest)))]
        simp
        rw [show printObj (JsonFields.cons k2 v2 tl) ++ rest
            = ',' :: (printKV k2 v2 ++ (printObj tl ++ rest)) by simp [printObj]]
        rw [ihA v f (',' :: (printKV k2 v2 ++ (printObj tl ++ rest)))
          (by have := jsonFuel_pos v2; have := fieldsFuel_pos tl; simp [fieldsFuel] at hN; omega)
          (by have := jsonFuel_pos v2; have := fieldsFuel_pos tl; simp [fieldsFuel] at hf; omega)
          (head_guard ',' _ (by decide))]
        simp
        rw [show printKV k2 v2 ++ (printObj tl ++ rest)
            = '"' :: (escList k2.data ++ ('"' :: ':' :: (printJson v2 ++ (printObj tl ++ rest)))) by
          simp [printKV]]
        rw [ihC k2 v2 tl f rest
          (by have := jsonFuel_pos v; simp [fieldsFuel] at hN; omega)
          (by have := jsonFuel_pos v; simp [fieldsFuel] at hf; omega)]

theorem parse_printJson (j : Json) (fuel : Nat) (rest : List Char)
    (hf : jsonFuel j ≤ fuel)
    (hrest : ∀ c, rest.head? = some c → c.isDigit = false) :
    parseVal fuel (printJson j ++ rest) = some (j, rest) :=
  (parse_print_all (jsonFuel j)).1 j fuel rest le_rfl hf hrest

theorem printInt_length_pos (n : Int) : 1 ≤ (printInt n).length := by
  obtain ⟨hdig, hval, hne⟩ := natDigits_spec n.natAbs
  obtain ⟨d, ds, hds⟩ : ∃ d ds, natDigits n.natAbs = d :: ds := by
    cases hnd : natDigits n.natAbs with
    | nil => exact absurd hnd hne
    | cons d ds => exact ⟨d, ds, rfl⟩
  by_cases hn : n < 0 <;> simp [printInt, hn, hds]

theorem fuel_bound_all (N : Nat) :
    (∀ j : Json, jsonFuel j ≤ N → jsonFuel j ≤ 2 * (printJson j).length) ∧
    (∀ xs : JsonList, listFuel xs ≤ N → listFuel xs ≤ 2 * (printArr xs).length) ∧
    (∀ fs : JsonFields, fieldsFuel fs ≤ N → fieldsFuel fs ≤ 2 * (printObj fs).length) := by
  induction N with
  | zero =>
    refine ⟨fun j h => absurd h (by have := jsonFuel_pos j; omega),
      fun xs h => absurd h (by have := listFuel_pos xs; omega),
      fun fs h => absurd h (by have := fieldsFuel_pos fs; omega)⟩
  | succ N ih =>
    obtain ⟨ihA, ihB, ihC⟩ := ih
    refine ⟨?_, ?_, ?_⟩
    · intro j hN
      cases j with
      | null => simp [jsonFuel, printJson]
      | bool b => cases b <;> simp [jsonFuel, printJson]
      | num n =>
        have := printInt_length_pos n
        simp [jsonFuel, printJson]
        omega
      | str s =>
        simp [jsonFuel, printJson]
        omega
      | arr xs =>
        cases xs with
        | nil => simp [jsonFuel, listFuel, printJson]
        | cons x tl =>
          have h1 := ihA x (by have := listFuel_pos tl; simp [jsonFuel, listFuel] at hN; omega)
          have h2 := ihB tl (by have := jsonFuel_pos x; simp [jsonFuel, listFuel] at hN; omega)
          simp [jsonFuel, listFuel, printJson]
          omega
      | obj fs =>
        cases fs with
        | nil => simp [jsonFuel, fieldsFuel, printJson]
        | cons k v tl =>
          have h1 := ihA v (by have := fieldsFuel_pos tl; simp [jsonFuel, fieldsFuel] at hN; omega)
          have h2 := ihC tl (by have := jsonFuel_pos v; simp [jsonFuel, fieldsFuel] at hN; omega)
          simp [jsonFuel, fieldsFuel, printJson, printKV]
          omega
    · intro xs hN
      cases xs with
      | nil => simp [listFuel, printArr]
      | cons y tl =>
        have h1 := ihA y (by have := listFuel_pos tl; simp [listFuel] at hN; omega)
        have h2 := ihB tl (by have := jsonFuel_pos y; simp [listFuel] at hN; omega)
        simp [listFuel, printArr]
        omega
    · intro fs hN
      cases fs with
      | nil => simp [fieldsFuel, printObj]
      | cons k v tl =>
        have h1 := ihA v (by have := fieldsFuel_pos tl; simp [fieldsFuel] at hN; omega)
        have h2 := ihC tl (by have := jsonFuel_pos v; simp [fieldsFuel] at hN; omega)
        simp [fieldsFuel, printObj, printKV]
        omega

/-- Round trip of the modelled codec: reading back a printed value restores it. -/
theorem jsonParse_stringify (j : Json) : jsonParse (stringify j) = some j := by
  have hfb := (fuel_bound_all (jsonFuel j)).1 j le_rfl
  have h := parse_printJson j (2 * (printJson j).length + 2) [] (by omega) head_guard_nil
  rw [List.append_nil] at h
  unfold jsonParse stringify
  simp only [show (String.mk (printJson j)).data = printJson j from rfl]
  rw [h]

theorem msPerDay_eq : msPerDay = 86400000 := by norm_num [msPerDay]

theorem stringify_ne_empty (j : Json) : stringify j ≠ "" := by
  obtain ⟨c, l, hcl, _, _⟩ := printJson_shape j
  unfold stringify
  rw [hcl]
  intro h
  have : (String.mk (c :: l)).data = ("" : String).data := by rw [h]
  simp at this

/-- Evaluation of the lesson mapper below the release instant: the fixed
redacted literal, independent of the withheld columns. -/
theorem viewLesson_not_released (P now : Int) (l : Lesson)
    (h : now < releaseDateOf P l.drip_days) :
    viewLesson P now l = .ok (.redacted
      ⟨l.id, l.title, l.order_index, false, isoDay (releaseDateOf P l.drip_days),
        none, comingSoon, none⟩) := by
  unfold viewLesson
  simp [show ¬(now ≥ releaseDateOf P l.drip_days) from not_le.mpr h]

/-- Evaluation of the lesson mapper at or after the release instant. -/
theorem viewLesson_released (P now : Int) (l : Lesson) (hok : LinksOk l)
    (h : now ≥ releaseDateOf P l.drip_days) :
    viewLesson P now l = .ok (.full l true (decodedLinks l)) := by
  unfold viewLesson decodedLinks
  simp [h]
  unfold LinksOk at hok
  cases hl : l.links with
  | none => simp
  | some s =>
    rw [hl] at hok
    by_cases hs : s = ""
    · subst hs
      simp
    · simp only [if_neg hs]
      rcases hok with h1 | h1
      · exact absurd h1 hs
      · obtain ⟨j, hj⟩ := Option.isSome_iff_exists.mp h1
        simp [hj]

/-- C1: for a lesson with drip-days d and a purchase at instant P, the content
listing presents the lesson in full at instant t iff t is at or after the
release instant P plus d calendar days (time of day carried over); d ≤ 0
releases immediately (full from the purchase instant on); before the release
instant only the redacted shape is returned. -/
theorem c1_drip_release (P now : Int) (l : Lesson) (hok : LinksOk l) :
    ((∃ v, viewLesson P now l = .ok (.full l true v)) ↔
      now ≥ releaseDateOf P l.drip_days) ∧
    (l.drip_days ≤ 0 → now ≥ P →
      viewLesson P now l = .ok (.full l true (decodedLinks l))) ∧
    (now < releaseDateOf P l.drip_days →
      viewLesson P now l = .ok (.redacted
        ⟨l.id, l.title, l.order_index, false, isoDay (releaseDateOf P l.drip_days),
          none, comingSoon, none⟩)) := by
  refine ⟨⟨?_, ?_⟩, ?_, viewLesson_not_released P now l⟩
  · rintro ⟨v, hv⟩
    by_contra hlt
    push_neg at hlt
    rw [viewLesson_not_released P now l hlt] at hv
    simp at hv
  · intro hrel
    exact ⟨decodedLinks l, viewLesson_released P now l hok hrel⟩
  · intro hd hP
    apply viewLesson_released P now l hok
    unfold releaseDateOf
    rw [msPerDay_eq]
    have : l.drip_days * 86400000 ≤ 0 := by
      have h0 : (0 : Int) ≤ 86400000 := by norm_num
      exact mul_nonpos_iff.mpr (Or.inr ⟨hd, h0⟩)
    omega

/-- Witness for C1 at drip 3, purchase instant 0, viewed at day 3 and day 2. -/
theorem c1_drip_release_witness :
    LinksOk ⟨7, 1, "aula", "url", none, none, 3, 0⟩ ∧
    ((∃ v, viewLesson 0 (3 * 86400000) ⟨7, 1, "aula", "url", none, none, 3, 0⟩
        = .ok (.full ⟨7, 1, "aula", "url", none, none, 3, 0⟩ true v)) ↔
      (3 * 86400000 : Int) ≥ releaseDateOf 0 (3 : Int)) ∧
    viewLesson 0 (2 * 86400000) ⟨7, 1, "aula", "url", none, none, 3, 0⟩
      = .ok (.redacted ⟨7, "aula", 0, false, isoDay (releaseDateOf 0 (3 : Int)),
          none, comingSoon, none⟩) :=
  ⟨trivial,
    (c1_drip_release 0 (3 * 86400000) ⟨7, 1, "aula", "url", none, none, 3, 0⟩ trivial).1,
    (c1_drip_release 0 (2 * 86400000) ⟨7, 1, "aula", "url", none, none, 3, 0⟩ trivial).2.2
      (by rw [releaseDateOf, msPerDay_eq]; norm_num)⟩

theorem dashboardDiffDays_eq (now P : Int) :
    dashboardDiffDays now P = ((now - P).natAbs + 86399999) / 86400000 := by
  unfold dashboardDiffDays ceilDivNat
  norm_num

/-- C2: refund eligibility is ceil of the absolute elapsed time over one day,
compared with 7: diffDays is the least number of whole days covering the
elapsed time; a purchase 1 second old gives diffDays 1 (eligible), one 7 days
and 1 second old gives diffDays 8 (not eligible); and the refund-request
endpoint answers the window-expired 403 whenever diffDays exceeds 7. -/
theorem c2_refund_window_arith :
    (∀ now P : Int,
      ((now - P).natAbs ≤ dashboardDiffDays now P * 86400000 ∧
        ∀ m : Nat, (now - P).natAbs ≤ m * 86400000 → dashboardDiffDays now P ≤ m) ∧
      (dashboardIsRefundEligible now P = true ↔ (now - P).natAbs ≤ 7 * 86400000) ∧
      dashboardDiffDays (P + 1000) P = 1 ∧
      dashboardIsRefundEligible (P + 1000) P = true ∧
      dashboardDiffDays (P + (7 * 86400000 + 1000)) P = 8 ∧
      dashboardIsRefundEligible (P + (7 * 86400000 + 1000)) P = false) ∧
    (∀ db u cid (msg : String) (now : Int) emailOk c usr p rest,
      cid ≠ 0 → msg ≠ "" →
      refundJoinRows db u cid = (c, usr, p) :: rest →
      refundDiffDays now p.purchase_date > 7 →
      requestRefund db u (some cid) (some msg) now emailOk
        = (.windowExpired403 (refundDiffDays now p.purchase_date), db)) := by
  constructor
  · intro now P
    unfold dashboardIsRefundEligible
    simp only [dashboardDiffDays_eq]
    refine ⟨⟨by omega, fun m hm => by omega⟩,
      by simp only [decide_eq_true_eq]; omega,
      by omega,
      by simp only [decide_eq_true_eq]; omega,
      by omega,
      by simp only [decide_eq_false_iff_not]; omega⟩
  · intro db u cid msg now emailOk c usr p rest hcid hmsg hjoin hgt
    have h1 : truthyNat (some cid) = true := by simp [truthyNat, hcid]
    have h2 : truthyStr (some msg) = true := by simp [truthyStr, hmsg]
    unfold requestRefund
    simp [h1, h2, hjoin, hgt]

/-- Witness for C2 applied at exDB: a refund asked 8 days after purchase. -/
theorem c2_refund_window_arith_witness :
    requestRefund exDB 1 (some 1) (some "quero reembolso") (8 * 86400000) true
      = (.windowExpired403 8, exDB) := by
  have h := c2_refund_window_arith.2 exDB 1 1 "quero reembolso" (8 * 86400000) true
    exCourse exUser exPurchase [] (by decide) (by decide) (by decide) (by decide)
  rw [show refundDiffDays (8 * 86400000) exPurchase.purchase_date = 8 from by decide] at h
  exact h

/-- C3: below the release instant the listing returns only identity, title,
order position, isReleased false and the release calendar day; the video URL
and links come back absent, the description is the fixed placeholder, and the
output is identical for any two stored values of the withheld columns. -/
theorem c3_redacted_noninterference (P now : Int) (l1 l2 : Lesson)
    (hid : l1.id = l2.id) (ht : l1.title = l2.title)
    (ho : l1.order_index = l2.order_index) (hd : l1.drip_days = l2.drip_days)
    (hlt : now < releaseDateOf P l1.drip_days) :
    viewLesson P now l1 = viewLesson P now l2 ∧
    viewLesson P now l1 = .ok (.redacted
      ⟨l1.id, l1.title, l1.order_index, false, isoDay (releaseDateOf P l1.drip_days),
        none, comingSoon, none⟩) := by
  have h1 := viewLesson_not_released P now l1 hlt
  have h2 := viewLesson_not_released P now l2 (by rw [← hd]; exact hlt)
  refine ⟨?_, h1⟩
  rw [h1, h2, hid, ht, ho, hd]

/-- Witness for C3: two stored rows differing only in video URL, description
text and links, both viewed one day before release. -/
theorem c3_redacted_noninterference_witness :
    viewLesson 0 86400000 ⟨7, 1, "aula", "videoA", some "descA", some "[1]", 2, 5⟩
      = viewLesson 0 86400000 ⟨7, 1, "aula", "videoB", some "descB", some "[2,3]", 2, 5⟩ :=
  (c3_redacted_noninterference 0 86400000
    ⟨7, 1, "aula", "videoA", some "descA", some "[1]", 2, 5⟩
    ⟨7, 1, "aula", "videoB", some "descB", some "[2,3]", 2, 5⟩
    rfl rfl rfl rfl (by rw [releaseDateOf, msPerDay_eq]; norm_num)).1

/-- C4: the content listing checks the purchase before the course: with no
Purchase row for (user, course) it answers 403 even when the course exists,
and 404 is answered exactly when a purchase row exists and the course does
not; the two rejections are distinct. -/
theorem c4_check_order (db : DB) (u c : Nat) (now : Int) :
    (db.purchases.filter (fun p => p.user_id == u && p.course_id == c) = [] →
      getCourseContent db u c now = .forbidden403) ∧
    (getCourseContent db u c now = .notFound404 ↔
      db.purchases.filter (fun p => p.user_id == u && p.course_id == c) ≠ [] ∧
      db.courses.filter (fun x => x.id == c) = []) ∧
    ContentResult.forbidden403 ≠ ContentResult.notFound404 := by
  refine ⟨?_, ⟨?_, ?_⟩, by simp⟩
  · intro h
    unfold getCourseContent
    rw [h]
  · intro h
    unfold getCourseContent at h
    split at h
    · simp at h
    · rename_i p tail hp2
      dsimp only at h
      split at h
      · rename_i hc2
        refine ⟨by rw [hp2]; simp, hc2⟩
      · rename_i c0 cs hc2
        try dsimp only at h
        split at h <;> simp at h
  · rintro ⟨h1, h2⟩
    obtain ⟨p, ps, hp⟩ := List.exists_cons_of_ne_nil h1
    unfold getCourseContent
    rw [hp, h2]

/-- Witness for C4: user 2 never purchased course 1, which exists in exDB;
the listing answers the unpurchased 403, distinct from the 404. -/
theorem c4_check_order_witness :
    getCourseContent exDB 2 1 0 = .forbidden403 ∧
    ContentResult.forbidden403 ≠ ContentResult.notFound404 :=
  ⟨(c4_check_order exDB 2 1 0).1 (by decide), (c4_check_order exDB 2 1 0).2.2⟩

theorem any_false_filter_nil {α : Type} (p : α → Bool) (l : List α)
    (h : l.any p = false) : l.filter p = [] := by
  rw [List.filter_eq_nil_iff]
  intro a ha hpa
  have := List.any_eq_true.mpr ⟨a, ha, hpa⟩
  rw [h] at this
  cases this

theorem length_filter_append_single {α : Type} (p : α → Bool) (l : List α) (a : α)
    (hnew : p a = true → l.filter p = []) (hl : (l.filter p).length ≤ 1) :
    ((l ++ [a]).filter p).length ≤ 1 := by
  rw [List.filter_append]
  by_cases hp : p a = true
  · simp [List.filter, hp, hnew hp]
  · simp only [List.filter, hp]
    simp [hl]

/-- C5: the uniqueness invariant of Purchases is preserved by the purchase
operation, and a second purchase of an existing (user, course) pair answers
the 409 conflict, inserts nothing, and leaves the state unchanged. -/
theorem c5_purchase_unique (db : DB) (u : Nat) (cid : Option Nat) (now : Int) :
    (AtMostOnePurchase db → AtMostOnePurchase (purchaseCourse db u cid now).2) ∧
    (∀ c : Nat, c ≠ 0 →
      db.courses.filter (fun x => x.id == c) ≠ [] →
      db.purchases.any (fun p => p.user_id == u && p.course_id == c) = true →
      purchaseCourse db u (some c) now = (.conflict409, db)) := by
  constructor
  · intro hinv
    unfold purchaseCourse
    by_cases ht : truthyNat cid = false
    · rw [if_pos ht]
      exact hinv
    · rw [if_neg ht]
      cases cid with
      | none => exact hinv
      | some c =>
        dsimp only
        cases hc : db.courses.filter (fun x => x.id == c) with
        | nil => exact hinv
        | cons c0 cs =>
          dsimp only
          by_cases hany : db.purchases.any (fun p => p.user_id == u && p.course_id == c) = true
          · rw [if_pos hany]
            exact hinv
          · rw [if_neg hany]
            intro u' c'
            dsimp only
            apply length_filter_append_single
            · intro hpa
              simp only [Bool.and_eq_true, beq_iff_eq] at hpa
              rw [← hpa.1, ← hpa.2]
              exact any_false_filter_nil _ _ (by simp only [Bool.not_eq_true] at hany; exact hany)
            · exact hinv u' c'
  · intro c hc0 hcourse hany
    obtain ⟨c0, cs, hcs⟩ := List.exists_cons_of_ne_nil hcourse
    unfold purchaseCourse
    rw [if_neg (by simp [truthyNat, hc0])]
    dsimp only
    rw [hcs, if_pos hany]

/-- Witness for C5: user 1 already purchased course 1 in exDB; a second
attempt is answered 409 and the store is unchanged. -/
theorem c5_purchase_unique_witness :
    purchaseCourse exDB 1 (some 1) 5 = (.conflict409, exDB) :=
  (c5_purchase_unique exDB 1 (some 1) 5).2 1 (by decide) (by decide) (by decide)

/-- Evaluation of requestRefund once validation passed and the join found a
purchase row: window check first, then pending check, then insert and notify. -/
theorem requestRefund_reduce (db : DB) (u cid : Nat) (msg : String) (now : Int)
    (emailOk : Bool) (c : Course) (usr : User) (p : Purchase)
    (rest : List (Course × User × Purchase))
    (hcid : cid ≠ 0) (hmsg : msg ≠ "")
    (hjoin : refundJoinRows db u cid = (c, usr, p) :: rest) :
    requestRefund db u (some cid) (some msg) now emailOk
      = (if refundDiffDays now p.purchase_date > 7 then
          (.windowExpired403 (refundDiffDays now p.purchase_date), db)
        else if (db.refunds.filter (fun r =>
            r.user_id == u && r.course_id == cid
              && r.status == RefundStatus.pendente)).length > 0 then
          (.conflict409, db)
        else if emailOk then
          (.ok200, { db with refunds := db.refunds ++
            [⟨nextId (db.refunds.map (fun r => r.id)), u, cid, msg, now, .pendente⟩] })
        else
          (.error500, { db with refunds := db.refunds ++
            [⟨nextId (db.refunds.map (fun r => r.id)), u, cid, msg, now, .pendente⟩] })) := by
  unfold requestRefund
  rw [if_neg (by simp [truthyNat, truthyStr, hcid, hmsg])]
  dsimp only
  rw [hjoin]

/-- C6 counterexample: in exDBPending a Pending request for (user 1, course 1)
exists, yet a second request filed 8 days after purchase is answered with the
window-expired 403, not the 409 conflict the claim requires. -/
theorem c6_counterexample :
    (pendingFilter exDBPending 1 1).length > 0 ∧
    (requestRefund exDBPending 1 (some 1) (some "de novo") (8 * 86400000) true).1
      ≠ RefundResult.conflict409 ∧
    (requestRefund exDBPending 1 (some 1) (some "de novo") (8 * 86400000) true).1
      = RefundResult.windowExpired403 8 := by
  refine ⟨by decide, by decide, by decide⟩

/-- C6 as amended: with a purchase row found, an expired window (diffDays > 7)
is answered 403 before the pending check, so the 409 conflict is answered
exactly when the window has not expired and a Pending row exists; in both
failure cases the state is unchanged (no insert), and the at-most-one-Pending
invariant is preserved by the operation. -/
theorem c6_refund_gate (db : DB) (u cid : Nat) (msg : String) (now : Int)
    (emailOk : Bool) (c : Course) (usr : User) (p : Purchase)
    (rest : List (Course × User × Purchase))
    (hcid : cid ≠ 0) (hmsg : msg ≠ "")
    (hjoin : refundJoinRows db u cid = (c, usr, p) :: rest) :
    (refundDiffDays now p.purchase_date > 7 →
      requestRefund db u (some cid) (some msg) now emailOk
        = (.windowExpired403 (refundDiffDays now p.purchase_date), db)) ∧
    (refundDiffDays now p.purchase_date ≤ 7 → (pendingFilter db u cid).length > 0 →
      requestRefund db u (some cid) (some msg) now emailOk = (.conflict409, db)) ∧
    (AtMostOnePending db →
      AtMostOnePending (requestRefund db u (some cid) (some msg) now emailOk).2) := by
  have hred := requestRefund_reduce db u cid msg now emailOk c usr p rest hcid hmsg hjoin
  refine ⟨?_, ?_, ?_⟩
  · intro hgt
    rw [hred, if_pos hgt]
  · intro hle hpend
    rw [hred, if_neg (by omega)]
    rw [if_pos (by unfold pendingFilter at hpend; exact hpend)]
  · intro hinv u' c'
    rw [hred]
    by_cases h1 : refundDiffDays now p.purchase_date > 7
    · rw [if_pos h1]
      exact hinv u' c'
    · rw [if_neg h1]
      by_cases h2 : (db.refunds.filter (fun r =>
          r.user_id == u && r.course_id == cid
            && r.status == RefundStatus.pendente)).length > 0
      · rw [if_pos h2]
        exact hinv u' c'
      · rw [if_neg h2]
        have hins : ∀ db2 : DB, db2.refunds = db.refunds ++
            [⟨nextId (db.refunds.map (fun r => r.id)), u, cid, msg, now, .pendente⟩] →
            (pendingFilter db2 u' c').length ≤ 1 := by
          intro db2 hdb2
          unfold pendingFilter
          rw [hdb2]
          apply length_filter_append_single
          · intro hpa
            simp only [Bool.and_eq_true, beq_iff_eq] at hpa
            rw [← hpa.1.1, ← hpa.1.2]
            have h0 : (db.refunds.filter (fun r =>
                r.user_id == u && r.course_id == cid
                  && r.status == RefundStatus.pendente)).length = 0 := by omega
            rw [List.length_eq_zero] at h0
            exact h0
          · exact hinv u' c'
        cases emailOk with
        | true => exact hins _ rfl
        | false => exact hins _ rfl

/-- Witness for C6 as amended: a duplicate request inside the window at
exDBPending is answered 409 with the store unchanged. -/
theorem c6_refund_gate_witness :
    requestRefund exDBPending 1 (some 1) (some "de novo") (3 * 86400000) true
      = (.conflict409, exDBPending) :=
  (c6_refund_gate exDBPending 1 1 "de novo" (3 * 86400000) true exCourse exUser exPurchase []
    (by decide) (by decide) (by decide)).2.1 (by decide) (by decide)

/-- C8: when the notification dispatch throws after the INSERT, the operation
answers 500 to the client, yet the state returned holds the newly inserted
Pending row: there is no compensating rollback. -/
theorem c8_notify_failure_persists (db : DB) (u cid : Nat) (msg : String) (now : Int)
    (c : Course) (usr : User) (p : Purchase) (rest : List (Course × User × Purchase))
    (hcid : cid ≠ 0) (hmsg : msg ≠ "")
    (hjoin : refundJoinRows db u cid = (c, usr, p) :: rest)
    (hwin : refundDiffDays now p.purchase_date ≤ 7)
    (hnp : (pendingFilter db u cid).length = 0) :
    requestRefund db u (some cid) (some msg) now false
      = (.error500, { db with refunds := db.refunds ++
          [⟨nextId (db.refunds.map (fun r => r.id)), u, cid, msg, now, .pendente⟩] }) := by
  rw [requestRefund_reduce db u cid msg now false c usr p rest hcid hmsg hjoin]
  rw [if_neg (by omega)]
  rw [if_neg (by unfold pendingFilter at hnp; omega)]
  rw [if_neg (by simp)]

/-- Witness for C8: a valid refund request at exDB with failing notification
is answered 500 while the Pending row is persisted. -/
theorem c8_notify_failure_persists_witness :
    requestRefund exDB 1 (some 1) (some "quero reembolso") 1000 false
      = (.error500, { exDB with refunds := [⟨1, 1, 1, "quero reembolso", 1000, .pendente⟩] }) :=
  c8_notify_failure_persists exDB 1 1 "quero reembolso" 1000 exCourse exUser exPurchase []
    (by decide) (by decide) (by decide) (by decide) (by decide)

/-- C7: the dashboard annotation and the refund gate share the eligibility
arithmetic: both day counts coincide as functions, the dashboard flag is true
exactly when the gate's rejection test fails, and every dashboard entry
carries the very values the refund endpoint would compute for its purchase. -/
theorem c7_same_arith (now P : Int) :
    dashboardDiffDays now P = refundDiffDays now P ∧
    (dashboardIsRefundEligible now P = true ↔ ¬refundDiffDays now P > 7) ∧
    (∀ db u, ∀ e ∈ getPurchasedCourses db u now,
      e.daysSincePurchase = refundDiffDays now e.purchase_date ∧
      (e.isRefundEligible = true ↔ refundDiffDays now e.purchase_date ≤ 7)) := by
  refine ⟨rfl, ?_, ?_⟩
  · unfold dashboardIsRefundEligible
    simp only [decide_eq_true_eq]
    have hdr : refundDiffDays now P = dashboardDiffDays now P := rfl
    rw [hdr]
    omega
  · intro db u e he
    unfold getPurchasedCourses at he
    rw [List.mem_map] at he
    obtain ⟨pc, hpc, rfl⟩ := he
    refine ⟨rfl, ?_⟩
    unfold dashboardIsRefundEligible
    simp only [decide_eq_true_eq]
    exact Iff.rfl

/-- Witness for C7 at exDB one second after purchase: the dashboard entry
carries the gate's day count. -/
theorem c7_same_arith_witness :
    (⟨1, "Curso", "img.png", "desc", 0, true, 1⟩ : DashboardEntry).daysSincePurchase
      = refundDiffDays 1000 0 :=
  ((c7_same_arith 1000 0).2.2 exDB 1 ⟨1, "Curso", "img.png", "desc", 0, true, 1⟩ (by decide)).1

theorem splitOnChar_no_sep (sep : Char) (cs : List Char) (h : ∀ c ∈ cs, c ≠ sep) :
    splitOnChar sep cs = [cs] := by
  induction cs with
  | nil => rfl
  | cons c t ih =>
    have hc : c ≠ sep := h c (by simp)
    have ht := ih (fun x hx => h x (by simp [hx]))
    simp [splitOnChar, hc, ht]

theorem splitOnChar_append_sep (sep : Char) (pre post : List Char)
    (h : ∀ c ∈ pre, c ≠ sep) :
    splitOnChar sep (pre ++ sep :: post) = pre :: splitOnChar sep post := by
  induction pre with
  | nil => simp [splitOnChar]
  | cons c t ih =>
    have hc : c ≠ sep := h c (by simp)
    have ht := ih (fun x hx => h x (by simp [hx]))
    simp [splitOnChar, hc, ht]

theorem splitOnChar_head (sep : Char) (cs : List Char) :
    ∃ gs, splitOnChar sep cs = (cs.takeWhile (fun c => !(c == sep))) :: gs := by
  induction cs with
  | nil => exact ⟨[], rfl⟩
  | cons c t ih =>
    by_cases hc : c = sep
    · refine ⟨splitOnChar sep t, ?_⟩
      simp [splitOnChar, hc, List.takeWhile_cons]
    · obtain ⟨gs, hgs⟩ := ih
      refine ⟨gs, ?_⟩
      simp [splitOnChar, hc, hgs, List.takeWhile_cons]

theorem split_first (sep : Char) (cs : List Char) (h : sep ∈ cs) :
    ∃ pre post, cs = pre ++ sep :: post ∧ ∀ c ∈ pre, c ≠ sep := by
  induction cs with
  | nil => simp at h
  | cons c t ih =>
    by_cases hc : c = sep
    · exact ⟨[], t, by rw [hc]; simp, by simp⟩
    · have ht : sep ∈ t := by
        rcases List.mem_cons.mp h with h1 | h1
        · exact absurd h1.symm hc
        · exact h1
      obtain ⟨pre, post, heq, hpre⟩ := ih ht
      refine ⟨c :: pre, post, by simp [heq], ?_⟩
      intro x hx
      rcases List.mem_cons.mp hx with h1 | h1
      · rw [h1]; exact hc
      · exact hpre x h1

/-- C9: a protected request whose Authorization header is absent, or holds no
space, is answered with the missing-token 401 and verification is never
reached; whenever verification is reached, the verified token is the maximal
space-free segment immediately after the first space of the header. -/
theorem c9_auth_header :
    authMiddleware none = .missingToken401 ∧
    (∀ s : String, (∀ c ∈ s.data, c ≠ ' ') → authMiddleware (some s) = .missingToken401) ∧
    (∀ s t : String, authMiddleware (some s) = .verify t →
      ∃ pre post, s.data = pre ++ ' ' :: post ∧ (∀ c ∈ pre, c ≠ ' ') ∧
        t.data = post.takeWhile (fun c => !(c == ' ')) ∧ t ≠ "") := by
  refine ⟨rfl, ?_, ?_⟩
  · intro s hs
    unfold authMiddleware
    dsimp only
    rw [splitOnChar_no_sep ' ' s.data hs]
    rfl
  · intro s t hver
    by_cases hmem : ' ' ∈ s.data
    · obtain ⟨pre, post, heq, hpre⟩ := split_first ' ' s.data hmem
      refine ⟨pre, post, heq, hpre, ?_⟩
      unfold authMiddleware at hver
      dsimp only at hver
      rw [heq, splitOnChar_append_sep ' ' pre post hpre] at hver
      obtain ⟨gs, hgs⟩ := splitOnChar_head ' ' post
      rw [hgs] at hver
      dsimp only [List.get?] at hver
      by_cases htw : post.takeWhile (fun c => !(c == ' ')) = []
      · rw [if_pos htw] at hver
        simp at hver
      · rw [if_neg htw] at hver
        have ht : t = String.mk (post.takeWhile (fun c => !(c == ' '))) := by
          injection hver with h1
          exact h1.symm
        constructor
        · rw [ht]
        · rw [ht]
          intro hcontra
          have hd : (String.mk (post.takeWhile (fun c => !(c == ' ')))).data
              = ("" : String).data := by rw [hcontra]
          exact htw hd
    · have hm : authMiddleware (some s) = .missingToken401 := by
        unfold authMiddleware
        dsimp only
        rw [splitOnChar_no_sep ' ' s.data (fun c hc heq => hmem (heq ▸ hc))]
        rfl
      rw [hm] at hver
      simp at hver

/-- Witness for C9: a bare token without the Bearer marker is answered 401. -/
theorem c9_auth_header_witness :
    authMiddleware (some "tokensemespaco") = .missingToken401 :=
  c9_auth_header.2.1 "tokensemespaco" (by decide)

/-- C10: a lesson created with decodable linksJson stores its re-rendered
form and, once released, the listing returns a links value structurally equal
to the decode of the original text (round trip through the codec); with no
linksJson the stored and returned value is absent; an undecodable linksJson
is answered 400 before any storage write. -/
theorem c10_links_roundtrip :
    (∀ (db : DB) (mid : Nat) (t : String) (desc : Option String) (dd oi : Int)
        (vu s : String) (j : Json),
      mid ≠ 0 → t ≠ "" → jsonParse s = some j →
      createLesson db (some mid) (some t) desc (some s) (some dd) (some oi) vu
        = (.created201 (nextId (db.lessons.map (fun l => l.id))),
            { db with lessons := db.lessons ++
                [storedLesson db mid t desc (some (stringify j)) dd oi vu] }) ∧
      (∀ P now : Int, now ≥ releaseDateOf P dd →
        viewLesson P now (storedLesson db mid t desc (some (stringify j)) dd oi vu)
          = .ok (.full (storedLesson db mid t desc (some (stringify j)) dd oi vu)
              true (some j)))) ∧
    (∀ (db : DB) (mid : Nat) (t : String) (desc : Option String) (dd oi : Int)
        (vu : String),
      mid ≠ 0 → t ≠ "" →
      createLesson db (some mid) (some t) desc none (some dd) (some oi) vu
        = (.created201 (nextId (db.lessons.map (fun l => l.id))),
            { db with lessons := db.lessons ++
                [storedLesson db mid t desc none dd oi vu] }) ∧
      (∀ P now : Int, now ≥ releaseDateOf P dd →
        viewLesson P now (storedLesson db mid t desc none dd oi vu)
          = .ok (.full (storedLesson db mid t desc none dd oi vu) true none))) ∧
    (∀ (db : DB) (mid : Nat) (t : String) (desc : Option String) (dd oi : Int)
        (vu s : String),
      mid ≠ 0 → t ≠ "" → s ≠ "" → jsonParse s = none →
      createLesson db (some mid) (some t) desc (some s) (some dd) (some oi) vu
        = (.badRequest400, db)) := by
  refine ⟨?_, ?_, ?_⟩
  · intro db mid t desc dd oi vu s j hmid ht hj
    have hsne : s ≠ "" := by
      intro h
      rw [h] at hj
      exact Option.noConfusion (show (none : Option Json) = some j from hj)
    constructor
    · unfold createLesson
      rw [if_neg (by simp [truthyNat, truthyStr, hmid, ht])]
      dsimp only
      rw [if_neg (by simp [hsne])]
      rw [hj]
      rfl
    · intro P now hrel
      have hok : LinksOk (storedLesson db mid t desc (some (stringify j)) dd oi vu) := by
        unfold LinksOk storedLesson
        exact Or.inr (by rw [jsonParse_stringify]; rfl)
      rw [viewLesson_released P now _ hok hrel]
      have hdl : decodedLinks (storedLesson db mid t desc (some (stringify j)) dd oi vu)
          = some j := by
        unfold decodedLinks storedLesson
        dsimp only
        rw [if_neg (by simp [stringify_ne_empty j])]
        exact jsonParse_stringify j
      rw [hdl]
  · intro db mid t desc dd oi vu hmid ht
    constructor
    · unfold createLesson
      rw [if_neg (by simp [truthyNat, truthyStr, hmid, ht])]
      rfl
    · intro P now hrel
      have hok : LinksOk (storedLesson db mid t desc none dd oi vu) := by
        unfold LinksOk storedLesson
        exact trivial
      rw [viewLesson_released P now _ hok hrel]
      rfl
  · intro db mid t desc dd oi vu s hmid ht hsne hj
    unfold createLesson
    rw [if_neg (by simp [truthyNat, truthyStr, hmid, ht])]
    dsimp only
    rw [if_neg (by simp [hsne])]
    rw [hj]

/-- Witness for C10: creating a lesson with linksJson given by a one-element
array stores the re-rendered text; the stored row is the expected one. -/
theorem c10_links_roundtrip_witness :
    createLesson exDB (some 1) (some "aula") none (some "[1]") (some 2) (some 0) ""
      = (.created201 1,
          { exDB with lessons :=
              [storedLesson exDB 1 "aula" none
                (some (stringify (Json.arr (.cons (.num 1) .nil)))) 2 0 ""] }) :=
  (c10_links_roundtrip.1 exDB 1 "aula" none 2 0 "" "[1]"
    (Json.arr (.cons (.num 1) .nil)) (by decide) (by decide) (by rfl)).1

end Fc
